import Mathlib

/-!
# Verification of `estereo.py` (stereo WAVE channel tools)

A shallow embedding of the module `estereo.py`, which manipulates 16-bit PCM
WAVE files: header parsing/serialization (`leer_cabecera_wav`,
`escribir_cabecera_wav`) and the four sample-level transformations
(`estereo2mono`, `mono2estereo`, `codEstereo`, `decEstereo`).

Modelling conventions:
* A byte string (Python `bytes`) is a `List ℕ`, each entry `< 256`.
* Python integers are `ℤ` (arbitrary precision).  Python `//` is floor
  division, embedded as `Int.fdiv`; Python `%` on the values appearing here
  is `Int.emod`; the bitwise operators `&`, `|`, `>>` on Python integers act
  on the infinite two's-complement representation, which is exactly the
  semantics of `Int.land`, `Int.lor` and `Int.shiftRight`, and `x << n` is
  `x <<< (n : ℤ)` (Mathlib's arithmetic shift).
* `struct.pack`/`struct.unpack` with formats `<h`, `<i`, `<H`, `<I`, `<hh`
  are embedded byte-for-byte (little endian, two's complement); `struct`'s
  range check on packing is an `Option` (`none` = `struct.error`), and
  unpacking a slice of the wrong length is likewise `none`.
* File-level I/O (opening files, `seek`) is glue outside the embedded core;
  the embedded functions take the header bytes / data payload directly.
-/

/-! ## Little-endian byte codecs (the `struct` formats used by the source) -/

/-- Value of a little-endian byte list (each entry is one byte). -/
def leNat : List ℕ → ℕ
  | [] => 0
  | b :: bs => b + 256 * leNat bs

/-- The `k` little-endian bytes of `n` (`n < 256^k` is the caller's burden). -/
def natBytesLE : ℕ → ℕ → List ℕ
  | 0, _ => []
  | k + 1, n => n % 256 :: natBytesLE k (n / 256)

/-- Reinterpret an unsigned 16-bit value as signed two's complement
(`struct.unpack` format `<h` applied to the two bytes with value `n`). -/
def toInt16 (n : ℕ) : ℤ :=
  if n < 32768 then (n : ℤ) else (n : ℤ) - 65536

/-- Reinterpret an unsigned 32-bit value as signed two's complement
(`struct.unpack` format `<i` applied to the four bytes with value `n`). -/
def toInt32 (n : ℕ) : ℤ :=
  if n < 2147483648 then (n : ℤ) else (n : ℤ) - 4294967296

/-- `struct.pack('<h', v)`: two little-endian bytes of the two's complement
of `v`; `struct.error` (= `none`) when `v` is out of the `int16` range. -/
def pack_h (v : ℤ) : Option (List ℕ) :=
  if -32768 ≤ v ∧ v ≤ 32767 then some (natBytesLE 2 (v % 65536).toNat) else none

/-- `struct.pack('<i', v)`: four little-endian bytes of the two's complement
of `v`; `struct.error` (= `none`) when `v` is out of the `int32` range. -/
def pack_i (v : ℤ) : Option (List ℕ) :=
  if -2147483648 ≤ v ∧ v ≤ 2147483647 then
    some (natBytesLE 4 (v % 4294967296).toNat)
  else none

/-- `struct.pack('<H', v)` for a nonnegative `v` (all call sites pass
nonnegative values): two little-endian bytes, `struct.error` when `v` does
not fit 16 unsigned bits. -/
def pack_H (v : ℕ) : Option (List ℕ) :=
  if v ≤ 65535 then some (natBytesLE 2 v) else none

/-- `struct.pack('<I', v)` for a nonnegative `v`: four little-endian bytes,
`struct.error` when `v` does not fit 32 unsigned bits. -/
def pack_I (v : ℕ) : Option (List ℕ) :=
  if v ≤ 4294967295 then some (natBytesLE 4 v) else none

/-- `struct.unpack('<hh', bs)`: two signed 16-bit samples; `struct.error`
(= `none`) unless `bs` is exactly 4 bytes. -/
def unpack_hh (bs : List ℕ) : Option (ℤ × ℤ) :=
  match bs with
  | [b0, b1, b2, b3] => some (toInt16 (leNat [b0, b1]), toInt16 (leNat [b2, b3]))
  | _ => none

/-- `struct.unpack('<i', bs)[0]`: one signed 32-bit value; `struct.error`
(= `none`) unless `bs` is exactly 4 bytes. -/
def unpack_i (bs : List ℕ) : Option ℤ :=
  match bs with
  | [b0, b1, b2, b3] => some (toInt32 (leNat [b0, b1, b2, b3]))
  | _ => none

/-! ## HeaderCodec: `leer_cabecera_wav` / `escribir_cabecera_wav` -/

/-- The two `ValueError`s that `leer_cabecera_wav` can raise. -/
inductive HdrError : Type
  | invalidLength : HdrError  -- "no tiene una cabecera válida de 44 bytes"
  | invalidTag : HdrError     -- "no tiene una cabecera válida"
deriving DecidableEq, Repr

/-- The dictionary returned by `leer_cabecera_wav`. -/
structure WavParams : Type where
  canales : ℕ
  frecuencia : ℕ
  bits_per_sample : ℕ
  data_tamano : ℕ
  cabecera : List ℕ
deriving DecidableEq, Repr

/-- `leer_cabecera_wav` (source lines 21-41), applied to the bytes of the
file: reads the first 44 bytes, errors unless 44 are available, unpacks the
thirteen header fields with `struct.unpack('<4sI4s4sIHHIIHH4sI', ...)`,
errors unless the tags are `RIFF` / `WAVE` / `fmt ` / `data` (byte values
below), and returns the channel count (offset 22, `<H`), sample rate
(offset 24, `<I`), bits per sample (offset 34, `<H`), data size (offset 40,
`<I`) and the raw header bytes. -/
def leer_cabecera_wav (file : List ℕ) : Except HdrError WavParams :=
  let cabecera := file.take 44
  if cabecera.length ≠ 44 then .error .invalidLength
  else
    let riff := cabecera.take 4
    let wave := (cabecera.drop 8).take 4
    let fmt := (cabecera.drop 12).take 4
    let data := (cabecera.drop 36).take 4
    if riff ≠ [82, 73, 70, 70] ∨ wave ≠ [87, 65, 86, 69] ∨
        fmt ≠ [102, 109, 116, 32] ∨ data ≠ [100, 97, 116, 97] then
      .error .invalidTag
    else
      .ok { canales := leNat ((cabecera.drop 22).take 2)
            frecuencia := leNat ((cabecera.drop 24).take 4)
            bits_per_sample := leNat ((cabecera.drop 34).take 2)
            data_tamano := leNat ((cabecera.drop 40).take 4)
            cabecera := cabecera }

/-- `escribir_cabecera_wav` (source lines 43-66): the 44 header bytes built
with `struct.pack('<4sI4s4sIHHIIHH4sI', ...)` from the params dictionary and
the data size; `none` when a field value overflows its width
(`struct.error`).  Arguments are in the order `canales`, `frecuencia`,
`bits_per_sample` (the dictionary entries used), then `data_tamano`. -/
def escribir_cabecera_wav (canales frecuencia bits_per_sample data_tamano : ℕ) :
    Option (List ℕ) := do
  let riff_tamano := 36 + data_tamano
  let f2 ← pack_I riff_tamano
  let f5 ← pack_I 16
  let f6 ← pack_H 1
  let f7 ← pack_H canales
  let f8 ← pack_I frecuencia
  let f9 ← pack_I (frecuencia * canales * bits_per_sample / 8)
  let f10 ← pack_H (canales * bits_per_sample / 8)
  let f11 ← pack_H bits_per_sample
  let f13 ← pack_I data_tamano
  pure ([82, 73, 70, 70] ++ f2 ++ [87, 65, 86, 69] ++ [102, 109, 116, 32] ++
    f5 ++ f6 ++ f7 ++ f8 ++ f9 ++ f10 ++ f11 ++ [100, 97, 116, 97] ++ f13)

/-! ## SampleTransformer: the per-payload loops of the four operations -/

/-- The dispatch dictionary `operaciones` of `estereo2mono` (source lines
86-92); looking up a key outside `{0, 1, 2, 3}` is a `KeyError` (= `none`).
Python `//` is floor division, i.e. `Int.fdiv`. -/
def operaciones (canal : ℕ) : Option (ℤ → ℤ → ℤ) :=
  match canal with
  | 0 => some fun l _ => l
  | 1 => some fun _ r => r
  | 2 => some fun l r => (l + r).fdiv 2
  | 3 => some fun l r => (l - r).fdiv 2
  | _ => none

/-- The loop of `estereo2mono` (source lines 95-99) over the data bytes:
`frames[i:i+4]` is unpacked with `<hh` (error on a slice shorter than 4
bytes), the selected operation is applied, and the result is packed with
`<h`. -/
def estereo2mono_loop (operacion : ℤ → ℤ → ℤ) : List ℕ → Option (List ℕ)
  | [] => some []
  | b0 :: b1 :: b2 :: b3 :: rest => do
    let (left, right) ← unpack_hh [b0, b1, b2, b3]
    let packed ← pack_h (operacion left right)
    let out ← estereo2mono_loop operacion rest
    pure (packed ++ out)
  | _ => none  -- 1-3 trailing bytes: `struct.unpack('<hh', ...)` raises

/-- `estereo2mono` (source lines 68-104) restricted to its data
transformation: dictionary lookup of the operation, then the sample loop.
(The header validation and rewriting around it are file-level glue.) -/
def estereo2monoData (canal : ℕ) (frames : List ℕ) : Option (List ℕ) := do
  let operacion ← operaciones canal
  estereo2mono_loop operacion frames

/-- The loop of `mono2estereo` (source lines 128-132): steps two bytes at а
time through the left data, concatenating the 2-byte slices
`frames_left[i:i+2]` and `frames_right[i:i+2]` (slices may be short or
empty near the end; nothing is unpacked). -/
def mono2estereoData : List ℕ → List ℕ → List ℕ
  | [], _ => []
  | [b0], frames_right => [b0] ++ frames_right.take 2
  | b0 :: b1 :: rest, frames_right =>
    ([b0, b1] ++ frames_right.take 2) ++ mono2estereoData rest (frames_right.drop 2)

/-- The encoded 32-bit sample of `codEstereo` (source line 159):
`((left + right) // 2 << 16) | ((left - right) // 2 & 0xFFFF)` with Python's
two's-complement bitwise semantics (`Int.lor`, `Int.land`, arithmetic
shift). -/
def cod_sample (left right : ℤ) : ℤ :=
  Int.lor (((left + right).fdiv 2) <<< (16 : ℤ)) (Int.land ((left - right).fdiv 2) 0xFFFF)

/-- The loop of `codEstereo` (source lines 156-160): unpack each 4-byte
stereo frame with `<hh`, encode, pack the result with `<i`. -/
def codEstereo_loop : List ℕ → Option (List ℕ)
  | [] => some []
  | b0 :: b1 :: b2 :: b3 :: rest => do
    let (left, right) ← unpack_hh [b0, b1, b2, b3]
    let packed ← pack_i (cod_sample left right)
    let out ← codEstereo_loop rest
    pure (packed ++ out)
  | _ => none  -- 1-3 trailing bytes: `struct.unpack('<hh', ...)` raises

/-- `codEstereo` (source lines 139-165) restricted to its data
transformation. -/
def codEstereoData (frames : List ℕ) : Option (List ℕ) :=
  codEstereo_loop frames

/-- The per-sample arithmetic of `decEstereo` (source lines 194-207):
`semi_sum = (encoded_sample >> 16) & 0xFFFF` (not sign-adjusted),
`semi_diff = encoded_sample & 0xFFFF` sign-adjusted by subtracting
`0x10000` when `≥ 0x8000`, reconstruction, and clamping of both channels
into `[-32768, 32767]` via `max(-32768, min(32767, .))`. -/
def dec_sample (encoded_sample : ℤ) : ℤ × ℤ :=
  let semi_sum := Int.land (Int.shiftRight encoded_sample 16) 0xFFFF
  let semi_diff0 := Int.land encoded_sample 0xFFFF
  let semi_diff := if 0x8000 ≤ semi_diff0 then semi_diff0 - 0x10000 else semi_diff0
  let left := semi_sum + semi_diff
  let right := semi_sum - semi_diff
  (max (-32768) (min 32767 left), max (-32768) (min 32767 right))

/-- The loop of `decEstereo` (source lines 192-210): unpack each 4-byte
coded sample with `<i`, decode, pack the two channels with `<hh` (the two
little-endian `int16`s concatenated). -/
def decEstereo_loop : List ℕ → Option (List ℕ)
  | [] => some []
  | b0 :: b1 :: b2 :: b3 :: rest => do
    let encoded_sample ← unpack_i [b0, b1, b2, b3]
    let (left, right) := dec_sample encoded_sample
    let pl ← pack_h left
    let pr ← pack_h right
    let out ← decEstereo_loop rest
    pure (pl ++ pr ++ out)
  | _ => none  -- 1-3 trailing bytes: `struct.unpack('<i', ...)` raises

/-- `decEstereo` (source lines 167-215) restricted to its data
transformation: empty data raises `ValueError` ("No se pudo leer datos del
archivo de entrada.", line 186-187), otherwise the sample loop runs. -/
def decEstereoData (frames : List ℕ) : Option (List ℕ) :=
  if frames = [] then none
  else decEstereo_loop frames

/-! ## Bridging two's-complement bitwise operations to arithmetic

The source mixes bitwise operations (`<<`, `>>`, `&`, `|`) with arithmetic;
these lemmas express the bitwise forms arithmetically so that the sample
algebra can be settled by `omega`. -/

theorem lor_add_of_land_zero : ∀ x : ℕ, ∀ y : ℕ, x &&& y = 0 → x ||| y = x + y := by
  intro x
  induction x using Nat.strong_induction_on with
  | _ x ih =>
    intro y h
    rcases Nat.eq_zero_or_pos x with hx | hx
    · subst hx; simp
    · have hd : x / 2 &&& y / 2 = 0 := by rw [← Nat.and_div_two, h]
      have ihd := ih (x / 2) (Nat.div_lt_self hx (by norm_num)) (y / 2) hd
      have hor2 : (x ||| y) / 2 = x / 2 + y / 2 := by rw [Nat.or_div_two, ihd]
      have hmod : ¬(x % 2 = 1 ∧ y % 2 = 1) := by
        rintro ⟨h1, h2⟩
        have hco := Nat.and_mod_two_eq_one.mpr ⟨h1, h2⟩
        rw [h] at hco
        simp at hco
      have e1 := Nat.div_add_mod (x ||| y) 2
      have e2 := Nat.div_add_mod x 2
      have e3 := Nat.div_add_mod y 2
      rcases Nat.mod_two_eq_zero_or_one x with p1 | p1 <;>
        rcases Nat.mod_two_eq_zero_or_one y with p2 | p2
      · have hb : (x ||| y) % 2 ≠ 1 := fun hc => by
          rcases Nat.or_mod_two_eq_one.mp hc with h' | h' <;> omega
        omega
      · have hb : (x ||| y) % 2 = 1 := Nat.or_mod_two_eq_one.mpr (Or.inr p2)
        omega
      · have hb : (x ||| y) % 2 = 1 := Nat.or_mod_two_eq_one.mpr (Or.inl p1)
        omega
      · exact absurd ⟨p1, p2⟩ hmod

theorem mul_pow16_land_eq_zero (a c : ℕ) (hc : c < 65536) : (a * 65536) &&& c = 0 := by
  apply Nat.eq_of_testBit_eq
  intro i
  simp only [Nat.testBit_and, Nat.zero_testBit]
  rcases lt_or_le i 16 with hi | hi
  · have hsh : a * 65536 = a <<< 16 := by rw [Nat.shiftLeft_eq]
    have hbit : (a * 65536).testBit i = false := by
      rw [hsh, Nat.testBit_shiftLeft]
      have h16 : ¬(16 ≤ i) := by omega
      simp [h16]
    simp [hbit]
  · have hbit : c.testBit i = false := by
      apply Nat.testBit_lt_two_pow
      calc c < 65536 := hc
        _ = 2 ^ 16 := by norm_num
        _ ≤ 2 ^ i := Nat.pow_le_pow_right (by norm_num) hi
    simp [hbit]

theorem mul_pow16_lor_eq_add (a c : ℕ) (hc : c < 65536) : (a * 65536) ||| c = a * 65536 + c :=
  lor_add_of_land_zero _ _ (mul_pow16_land_eq_zero a c hc)

theorem ldiff_land_eq_zero (u c : ℕ) : Nat.ldiff u c &&& c = 0 := by
  apply Nat.eq_of_testBit_eq
  intro i
  simp only [Nat.testBit_and, Nat.testBit_ldiff, Nat.zero_testBit]
  cases c.testBit i <;> simp

theorem ldiff_lor_eq_self {u c : ℕ} (hu : u % 65536 = 65535) (hc : c < 65536) :
    Nat.ldiff u c ||| c = u := by
  apply Nat.eq_of_testBit_eq
  intro i
  simp only [Nat.testBit_or, Nat.testBit_ldiff]
  rcases lt_or_le i 16 with hi | hi
  · have h1 : (u % 65536).testBit i = (decide (i < 16) && u.testBit i) := by
      rw [show (65536 : ℕ) = 2 ^ 16 by norm_num]
      exact Nat.testBit_mod_two_pow u 16 i
    rw [hu] at h1
    have h2 : (65535 : ℕ).testBit i = true := by
      rw [show (65535 : ℕ) = 2 ^ 16 - 1 by norm_num, Nat.testBit_two_pow_sub_one]
      simp [hi]
    rw [h2] at h1
    have hui : u.testBit i = true := by
      cases hut : u.testBit i
      · rw [hut] at h1; simp at h1
      · rfl
    rw [hui]
    cases c.testBit i <;> simp
  · have hci : c.testBit i = false := by
      apply Nat.testBit_lt_two_pow
      calc c < 65536 := hc
        _ = 2 ^ 16 := by norm_num
        _ ≤ 2 ^ i := Nat.pow_le_pow_right (by norm_num) hi
    rw [hci]
    cases u.testBit i <;> simp

theorem ldiff_eq_sub {u c : ℕ} (hu : u % 65536 = 65535) (hc : c < 65536) :
    Nat.ldiff u c = u - c := by
  have h1 : Nat.ldiff u c ||| c = u := ldiff_lor_eq_self hu hc
  have h2 : Nat.ldiff u c + c = u := by
    rw [← lor_add_of_land_zero _ _ (ldiff_land_eq_zero u c)]
    exact h1
  omega

theorem ldiff_mask_eq (m : ℕ) : Nat.ldiff 65535 m = 65535 - m % 65536 := by
  have h0 : Nat.ldiff 65535 m = Nat.ldiff 65535 (m % 65536) := by
    apply Nat.eq_of_testBit_eq
    intro i
    simp only [Nat.testBit_ldiff]
    rcases lt_or_le i 16 with hi | hi
    · have h1 : (m % 65536).testBit i = (decide (i < 16) && m.testBit i) := by
        rw [show (65536 : ℕ) = 2 ^ 16 by norm_num]
        exact Nat.testBit_mod_two_pow m 16 i
      rw [h1]
      simp [hi]
    · have h2 : (65535 : ℕ).testBit i = false := by
        apply Nat.testBit_lt_two_pow
        calc 65535 < 65536 := by norm_num
          _ = 2 ^ 16 := by norm_num
          _ ≤ 2 ^ i := Nat.pow_le_pow_right (by norm_num) hi
      simp [h2]
  rw [h0]
  exact ldiff_eq_sub (by norm_num) (Nat.mod_lt _ (by norm_num))

theorem int_land_ofNat (m n : ℕ) : Int.land (Int.ofNat m) (Int.ofNat n) = Int.ofNat (m &&& n) := rfl

theorem int_land_negSucc (m n : ℕ) :
    Int.land (Int.negSucc m) (Int.ofNat n) = Int.ofNat (Nat.ldiff n m) := rfl

theorem int_lor_ofNat (m n : ℕ) : Int.lor (Int.ofNat m) (Int.ofNat n) = Int.ofNat (m ||| n) := rfl

theorem int_lor_negSucc (m n : ℕ) :
    Int.lor (Int.negSucc m) (Int.ofNat n) = Int.negSucc (Nat.ldiff m n) := rfl

theorem int_shiftRight_ofNat (m : ℕ) (s : ℕ) :
    Int.shiftRight (Int.ofNat m) s = Int.ofNat (m >>> s) := rfl

theorem int_shiftRight_negSucc (m : ℕ) (s : ℕ) :
    Int.shiftRight (Int.negSucc m) s = Int.negSucc (m >>> s) := rfl

/-- Python `x & 0xFFFF` on an arbitrary-precision integer is `x mod 2 ^ 16`
(with a nonnegative remainder). -/
theorem int_land_mask (x : ℤ) : Int.land x 65535 = x % 65536 := by
  cases x with
  | ofNat m =>
    rw [show (65535 : ℤ) = Int.ofNat 65535 from rfl, int_land_ofNat]
    have h1 : m &&& 65535 = m % 65536 := by
      rw [show (65535 : ℕ) = 2 ^ 16 - 1 by norm_num, Nat.and_pow_two_sub_one_eq_mod]
    rw [h1, Int.ofNat_eq_coe, Int.ofNat_eq_coe]
    omega
  | negSucc m =>
    rw [show (65535 : ℤ) = Int.ofNat 65535 from rfl, int_land_negSucc, ldiff_mask_eq,
      Int.ofNat_eq_coe, Int.negSucc_eq]
    omega

/-- Python `x << 16` is multiplication by `2 ^ 16`. -/
theorem int_shl16 (x : ℤ) : x <<< (16 : ℤ) = x * 65536 := by
  have h := Int.shiftLeft_eq_mul_pow x 16
  norm_num at h
  exact h

/-- Python `x >> 16` is flooring division by `2 ^ 16`. -/
theorem int_shr16 (x : ℤ) : Int.shiftRight x 16 = x.fdiv 65536 := by
  have hs : ∀ m : ℕ, m >>> 16 = m / 65536 := by
    intro m
    rw [Nat.shiftRight_eq_div_pow]
  cases x with
  | ofNat m =>
    rw [int_shiftRight_ofNat, Int.fdiv_eq_ediv _ (by norm_num), hs m]
    simp only [Int.ofNat_eq_coe]
    omega
  | negSucc m =>
    rw [int_shiftRight_negSucc, Int.fdiv_eq_ediv _ (by norm_num), hs m, Int.negSucc_eq,
      Int.negSucc_eq]
    omega

/-- A multiple of `2 ^ 16` `or`-ed with a low 16-bit value is their sum
(the bit supports are disjoint). -/
theorem int_lor_decomp (a c : ℤ) (hc0 : 0 ≤ c) (hc : c < 65536) :
    Int.lor (a * 65536) c = a * 65536 + c := by
  obtain ⟨cn, rfl⟩ : ∃ n : ℕ, c = Int.ofNat n :=
    ⟨c.toNat, by rw [Int.ofNat_eq_coe]; omega⟩
  rw [Int.ofNat_eq_coe] at hc hc0
  have hcn : cn < 65536 := by omega
  cases a with
  | ofNat t =>
    have h1 : (Int.ofNat t * 65536 : ℤ) = Int.ofNat (t * 65536) := by
      simp only [Int.ofNat_eq_coe]
      push_cast
      ring
    rw [h1, show (Int.ofNat cn : ℤ) = Int.ofNat cn from rfl]
    rw [int_lor_ofNat, mul_pow16_lor_eq_add _ _ hcn]
    simp only [Int.ofNat_eq_coe]
    push_cast
    ring
  | negSucc t =>
    have h1 : (Int.negSucc t * 65536 : ℤ) = Int.negSucc ((t + 1) * 65536 - 1) := by
      rw [Int.negSucc_eq, Int.negSucc_eq]
      omega
    rw [h1, int_lor_negSucc, ldiff_eq_sub (by omega) hcn, Int.negSucc_eq, Int.negSucc_eq,
      Int.ofNat_eq_coe]
    omega

/-! ## Arithmetic characterizations of the encode/decode samples -/

/-- The encoded sample, bitwise ops replaced by arithmetic: the semi-sum in
the high 16 bits (as a factor of `2 ^ 16`) plus the low 16 bits of the
semi-difference. -/
theorem cod_sample_eq (l r : ℤ) :
    cod_sample l r = ((l + r).fdiv 2) * 65536 + ((l - r).fdiv 2) % 65536 := by
  simp only [cod_sample, int_shl16, int_land_mask]
  exact int_lor_decomp _ _ (Int.emod_nonneg _ (by norm_num)) (Int.emod_lt_of_pos _ (by norm_num))

/-- The arithmetic reading of the spec's description of the `decEstereo`
per-sample computation: `mid = (sample >> 16) & 0xFFFF` as an unsigned
16-bit field, `rawSide = sample & 0xFFFF` reinterpreted as signed 16-bit
two's complement, reconstruction `mid ± side`, then clamping into
`[-32768, 32767]`. -/
def dec_sample_spec (sample : ℤ) : ℤ × ℤ :=
  let mid := (sample / 65536) % 65536
  let rawSide := sample % 65536
  let side := if 32768 ≤ rawSide then rawSide - 65536 else rawSide
  let left := mid + side
  let right := mid - side
  (max (-32768) (min 32767 left), max (-32768) (min 32767 right))

theorem dec_sample_eq_spec (e : ℤ) : dec_sample e = dec_sample_spec e := by
  simp only [dec_sample, dec_sample_spec, int_shr16, int_land_mask,
    Int.fdiv_eq_ediv _ (by norm_num : (0 : ℤ) ≤ 65536)]

/-- On samples from `[-32767, 32767]` with an even, nonnegative sum,
decoding inverts encoding at frame level. -/
theorem dec_cod_sample (l r : ℤ) (hl1 : -32767 ≤ l) (hl2 : l ≤ 32767)
    (hr1 : -32767 ≤ r) (hr2 : r ≤ 32767) (hpar : (l + r) % 2 = 0) (hsum : 0 ≤ l + r) :
    dec_sample (cod_sample l r) = (l, r) := by
  rw [cod_sample_eq, dec_sample_eq_spec]
  simp only [dec_sample_spec, Int.fdiv_eq_ediv _ (by norm_num : (0 : ℤ) ≤ 2), Prod.mk.injEq]
  constructor <;> split_ifs <;> omega

/-- The encoded sample always fits the `int32` range packed by `<i`. -/
theorem cod_sample_bounds (l r : ℤ) (hl1 : -32768 ≤ l) (hl2 : l ≤ 32767)
    (hr1 : -32768 ≤ r) (hr2 : r ≤ 32767) :
    -2147483648 ≤ cod_sample l r ∧ cod_sample l r ≤ 2147483647 := by
  rw [cod_sample_eq]
  rw [Int.fdiv_eq_ediv _ (by norm_num : (0 : ℤ) ≤ 2), Int.fdiv_eq_ediv _ (by norm_num : (0 : ℤ) ≤ 2)]
  omega

/-! ## Byte-level pack/unpack round trips -/

theorem natBytesLE_two (n : ℕ) : natBytesLE 2 n = [n % 256, n / 256 % 256] := rfl

theorem natBytesLE_four (n : ℕ) :
    natBytesLE 4 n = [n % 256, n / 256 % 256, n / 256 / 256 % 256, n / 256 / 256 / 256 % 256] := rfl

theorem leNat_two (b0 b1 : ℕ) : leNat [b0, b1] = b0 + 256 * b1 := by
  simp [leNat]

theorem leNat_four (b0 b1 b2 b3 : ℕ) :
    leNat [b0, b1, b2, b3] = b0 + 256 * (b1 + 256 * (b2 + 256 * b3)) := by
  simp [leNat]

/-- The bytes `struct.pack('<h', v)` produces for an in-range `v`. -/
def int16ToBytes (v : ℤ) : List ℕ :=
  natBytesLE 2 (v % 65536).toNat

theorem pack_h_eq (v : ℤ) (h1 : -32768 ≤ v) (h2 : v ≤ 32767) :
    pack_h v = some (int16ToBytes v) := by
  simp only [pack_h, int16ToBytes, Int.emod_emod_of_dvd]
  rw [if_pos ⟨h1, h2⟩]

theorem unpack_int16ToBytes (v : ℤ) (h1 : -32768 ≤ v) (h2 : v ≤ 32767) :
    toInt16 (leNat (int16ToBytes v)) = v := by
  rw [int16ToBytes, natBytesLE_two, leNat_two, toInt16]
  split_ifs <;> omega

theorem int16ToBytes_lt (v : ℤ) :
    ∀ b ∈ int16ToBytes v, b < 256 := by
  rw [int16ToBytes, natBytesLE_two]
  intro b hb
  simp only [List.mem_cons, List.not_mem_nil, or_false] at hb
  rcases hb with h | h <;> subst h <;> omega

theorem pack_i_eq (v : ℤ) (h1 : -2147483648 ≤ v) (h2 : v ≤ 2147483647) :
    pack_i v = some (natBytesLE 4 (v % 4294967296).toNat) := by
  simp only [pack_i]
  rw [if_pos ⟨h1, h2⟩]

theorem unpack_pack_i (v : ℤ) (h1 : -2147483648 ≤ v) (h2 : v ≤ 2147483647) :
    unpack_i (natBytesLE 4 (v % 4294967296).toNat) = some v := by
  rw [natBytesLE_four, unpack_i]
  simp only [leNat_four, toInt32]
  split_ifs <;> [skip; skip] <;> (congr 1; omega)

theorem int16ToBytes_spec (v : ℤ) (h1 : -32768 ≤ v) (h2 : v ≤ 32767) :
    ∃ a0 a1, int16ToBytes v = [a0, a1] ∧ a0 < 256 ∧ a1 < 256 ∧ toInt16 (a0 + 256 * a1) = v := by
  refine ⟨(v % 65536).toNat % 256, (v % 65536).toNat / 256 % 256, ?_, by omega, by omega, ?_⟩
  · rw [int16ToBytes, natBytesLE_two]
  · have h := unpack_int16ToBytes v h1 h2
    rw [int16ToBytes, natBytesLE_two, leNat_two] at h
    exact h

theorem pack_i_spec (v : ℤ) (h1 : -2147483648 ≤ v) (h2 : v ≤ 2147483647) :
    ∃ c0 c1 c2 c3, pack_i v = some [c0, c1, c2, c3] ∧ c0 < 256 ∧ c1 < 256 ∧ c2 < 256 ∧
      c3 < 256 ∧ toInt32 (leNat [c0, c1, c2, c3]) = v := by
  refine ⟨(v % 4294967296).toNat % 256, (v % 4294967296).toNat / 256 % 256,
    (v % 4294967296).toNat / 256 / 256 % 256, (v % 4294967296).toNat / 256 / 256 / 256 % 256,
    ?_, by omega, by omega, by omega, by omega, ?_⟩
  · rw [pack_i_eq v h1 h2, natBytesLE_four]
  · have h := unpack_pack_i v h1 h2
    rw [natBytesLE_four, unpack_i] at h
    simpa using h

/-- The data payload holding the given 16-bit stereo samples, one 4-byte
frame per pair, little endian. -/
def stereoBytes : List (ℤ × ℤ) → List ℕ
  | [] => []
  | (l, r) :: ps => int16ToBytes l ++ int16ToBytes r ++ stereoBytes ps

theorem cod_dec_loop (ps : List (ℤ × ℤ))
    (hps : ∀ p ∈ ps, -32767 ≤ p.1 ∧ p.1 ≤ 32767 ∧ -32767 ≤ p.2 ∧ p.2 ≤ 32767 ∧
      (p.1 + p.2) % 2 = 0 ∧ 0 ≤ p.1 + p.2) :
    ∃ cs, codEstereo_loop (stereoBytes ps) = some cs ∧
      decEstereo_loop cs = some (stereoBytes ps) := by
  induction ps with
  | nil => exact ⟨[], rfl, rfl⟩
  | cons p ps ih =>
    obtain ⟨l, r⟩ := p
    obtain ⟨hl1, hl2, hr1, hr2, hpar, hsum⟩ := hps (l, r) (List.mem_cons_self _ _)
    obtain ⟨cs, hcs, hdec⟩ := ih fun q hq => hps q (List.mem_cons_of_mem _ hq)
    obtain ⟨a0, a1, hA, ha0, ha1, hAv⟩ := int16ToBytes_spec l (by omega) (by omega)
    obtain ⟨b0, b1, hB, hb0, hb1, hBv⟩ := int16ToBytes_spec r (by omega) (by omega)
    have hbounds := cod_sample_bounds l r (by omega) (by omega) (by omega) (by omega)
    obtain ⟨c0, c1, c2, c3, hC, hc0, hc1, hc2, hc3, hCv⟩ :=
      pack_i_spec (cod_sample l r) (by omega) (by omega)
    have hstereo : stereoBytes ((l, r) :: ps) = a0 :: a1 :: b0 :: b1 :: stereoBytes ps := by
      rw [stereoBytes, hA, hB]
      rfl
    refine ⟨[c0, c1, c2, c3] ++ cs, ?_, ?_⟩
    · rw [hstereo]
      show (do
        let (left, right) ← unpack_hh [a0, a1, b0, b1]
        let packed ← pack_i (cod_sample left right)
        let out ← codEstereo_loop (stereoBytes ps)
        pure (packed ++ out)) = _
      rw [show unpack_hh [a0, a1, b0, b1] =
          some (toInt16 (leNat [a0, a1]), toInt16 (leNat [b0, b1])) from rfl]
      rw [leNat_two, leNat_two, hAv, hBv]
      simp only [Option.bind_eq_bind, Option.some_bind, hC, hcs]
      rfl
    · rw [hstereo]
      show (do
        let encoded_sample ← unpack_i [c0, c1, c2, c3]
        let (left, right) := dec_sample encoded_sample
        let pl ← pack_h left
        let pr ← pack_h right
        let out ← decEstereo_loop cs
        pure (pl ++ pr ++ out)) = _
      rw [show unpack_i [c0, c1, c2, c3] = some (toInt32 (leNat [c0, c1, c2, c3])) from rfl]
      rw [hCv]
      simp only [Option.bind_eq_bind, Option.some_bind]
      rw [dec_cod_sample l r hl1 hl2 hr1 hr2 hpar hsum]
      dsimp only []
      rw [pack_h_eq l (by omega) (by omega), pack_h_eq r (by omega) (by omega)]
      simp only [Option.some_bind, hdec]
      rw [hA, hB]
      rfl

theorem stereoBytes_length (ps : List (ℤ × ℤ)) : (stereoBytes ps).length = 4 * ps.length := by
  induction ps with
  | nil => rfl
  | cons p ps ih =>
    obtain ⟨l, r⟩ := p
    simp only [stereoBytes, List.length_append, List.length_cons, int16ToBytes, natBytesLE_two,
      List.length_nil, ih]
    omega

/-! ## Claim C1 -/

/-- **C1, counterexample.**  The payload `[1, 0, 0, 0]` carries the single
stereo frame `(left, right) = (1, 0)`, whose samples lie in
`[-32767, 32767]`; encoding and decoding it yields `[0, 0, 0, 0]`, not the
original payload (the halved semi-sum/semi-difference drop the parity bit of
`left + right`). -/
theorem C1_roundtrip_counterexample :
    unpack_hh [1, 0, 0, 0] = some (1, 0) ∧
    (codEstereoData [1, 0, 0, 0]).bind decEstereoData = some [0, 0, 0, 0] ∧
    ¬(codEstereoData [1, 0, 0, 0]).bind decEstereoData = some [1, 0, 0, 0] := by
  decide

/-- **C1, amended.**  Decoding inverts encoding for every nonempty stereo
payload whose frames `(left, right)` have both samples in `[-32767, 32767]`
and a sum `left + right` that is even (the halving loses the parity bit
otherwise) and nonnegative (`decEstereo` reads the semi-sum field back as an
unsigned 16-bit value, so a negative semi-sum is not restored); the payload
must also be nonempty because `decEstereo` raises on an empty data chunk. -/
theorem C1_codEstereo_decEstereo_roundtrip (ps : List (ℤ × ℤ)) (hne : ps ≠ [])
    (hps : ∀ p ∈ ps, -32767 ≤ p.1 ∧ p.1 ≤ 32767 ∧ -32767 ≤ p.2 ∧ p.2 ≤ 32767 ∧
      (p.1 + p.2) % 2 = 0 ∧ 0 ≤ p.1 + p.2) :
    (codEstereoData (stereoBytes ps)).bind decEstereoData = some (stereoBytes ps) := by
  obtain ⟨cs, hcs, hdec⟩ := cod_dec_loop ps hps
  have hcs_ne : cs ≠ [] := by
    intro h
    subst h
    have h0 : stereoBytes ps = [] := by
      have := hdec
      simp only [decEstereo_loop] at this
      exact (Option.some.injEq _ _ ▸ this).symm
    have hlen := stereoBytes_length ps
    rw [h0] at hlen
    rcases ps with _ | ⟨p, ps⟩
    · exact hne rfl
    · simp at hlen
  rw [codEstereoData, hcs, Option.some_bind, decEstereoData, if_neg hcs_ne, hdec]

/-- **C1, witness.**  The amended round trip evaluated on the single frame
`(2, 4)`. -/
theorem C1_roundtrip_witness :
    (codEstereoData (stereoBytes [((2 : ℤ), (4 : ℤ))])).bind decEstereoData =
      some (stereoBytes [((2 : ℤ), (4 : ℤ))]) :=
  C1_codEstereo_decEstereo_roundtrip [(2, 4)] (by decide) (by decide)

/-! ## Claim C2 -/

theorem estereo2mono_loop_none (op : ℤ → ℤ → ℤ) :
    ∀ frames : List ℕ, frames.length % 4 ≠ 0 → estereo2mono_loop op frames = none
  | [], h => absurd rfl h
  | [_], _ => rfl
  | [_, _], _ => rfl
  | [_, _, _], _ => rfl
  | a :: b :: c :: d :: rest, h => by
    have hrest : rest.length % 4 ≠ 0 := by
      simp only [List.length_cons] at h
      omega
    have ih := estereo2mono_loop_none op rest hrest
    simp only [estereo2mono_loop, unpack_hh, Option.bind_eq_bind, Option.some_bind]
    cases hp : pack_h (op (toInt16 (leNat [a, b])) (toInt16 (leNat [c, d]))) with
    | none => rfl
    | some packed => simp [ih]

theorem decEstereo_loop_none :
    ∀ frames : List ℕ, frames.length % 4 ≠ 0 → decEstereo_loop frames = none
  | [], h => absurd rfl h
  | [_], _ => rfl
  | [_, _], _ => rfl
  | [_, _, _], _ => rfl
  | a :: b :: c :: d :: rest, h => by
    have hrest : rest.length % 4 ≠ 0 := by
      simp only [List.length_cons] at h
      omega
    have ih := decEstereo_loop_none rest hrest
    simp only [decEstereo_loop, unpack_i, Option.bind_eq_bind, Option.some_bind]
    cases hde : dec_sample (toInt32 (leNat [a, b, c, d])) with
    | mk left right =>
      cases hp : pack_h left with
      | none => rfl
      | some pl =>
        cases hp2 : pack_h right with
        | none => simp
        | some pr => simp [ih]

/-- **C2, counterexample.**  On the 1-byte payload `[0]` (length not a
multiple of 4) both `estereo2mono` (here with the default `canal = 2`) and
`decEstereo` fail with `struct.error` (= `none`) instead of silently
ignoring the trailing byte and completing. -/
theorem C2_trailing_bytes_counterexample :
    estereo2monoData 2 [0] = none ∧ decEstereoData [0] = none := by
  decide

/-- **C2, amended.**  For every input payload whose byte length is not a
multiple of 4, the `estereo2mono` loop (any channel selector) and the
`decEstereo` loop fail with an error (`struct.unpack` receives a slice
shorter than 4 bytes), rather than silently ignoring the trailing bytes. -/
theorem C2_trailing_bytes_error (canal : ℕ) (frames : List ℕ)
    (h : frames.length % 4 ≠ 0) :
    estereo2monoData canal frames = none ∧ decEstereoData frames = none := by
  constructor
  · rw [estereo2monoData]
    cases hop : operaciones canal with
    | none => rfl
    | some op =>
      simp only [Option.bind_eq_bind, Option.some_bind]
      exact estereo2mono_loop_none op frames h
  · rw [decEstereoData]
    have hne : frames ≠ [] := by
      intro hh
      subst hh
      simp at h
    rw [if_neg hne]
    exact decEstereo_loop_none frames h

/-- **C2, witness.**  The amended statement evaluated on the 5-byte payload
`[0, 0, 0, 0, 0]` with `canal = 2`. -/
theorem C2_trailing_bytes_witness :
    estereo2monoData 2 [0, 0, 0, 0, 0] = none ∧ decEstereoData [0, 0, 0, 0, 0] = none :=
  C2_trailing_bytes_error 2 [0, 0, 0, 0, 0] (by decide)

/-! ## Claim C4 -/

/-- **C4.**  The `canal = 2` (semi-sum) and `canal = 3` (semi-difference)
selectors are the floor of `(left + right) / 2` and `(left - right) / 2`
(characterized by the two-sided inequality, i.e. rounding toward negative
infinity), and on the concrete frames: `(100, 50) ↦ 75` and `25`;
`(-100, 50) ↦ -25` and `-75`. -/
theorem C4_downmix_floor_semantics :
    operaciones 2 = some (fun l r => (l + r).fdiv 2) ∧
    operaciones 3 = some (fun l r => (l - r).fdiv 2) ∧
    (∀ l r : ℤ, 2 * ((l + r).fdiv 2) ≤ l + r ∧ l + r < 2 * ((l + r).fdiv 2) + 2) ∧
    (∀ l r : ℤ, 2 * ((l - r).fdiv 2) ≤ l - r ∧ l - r < 2 * ((l - r).fdiv 2) + 2) ∧
    estereo2monoData 2 (stereoBytes [(100, 50)]) = some (int16ToBytes 75) ∧
    estereo2monoData 3 (stereoBytes [(100, 50)]) = some (int16ToBytes 25) ∧
    estereo2monoData 2 (stereoBytes [(-100, 50)]) = some (int16ToBytes (-25)) ∧
    estereo2monoData 3 (stereoBytes [(-100, 50)]) = some (int16ToBytes (-75)) := by
  refine ⟨rfl, rfl, ?_, ?_, by decide, by decide, by decide, by decide⟩
  · intro l r
    rw [Int.fdiv_eq_ediv _ (by norm_num : (0 : ℤ) ≤ 2)]
    omega
  · intro l r
    rw [Int.fdiv_eq_ediv _ (by norm_num : (0 : ℤ) ≤ 2)]
    omega

/-! ## Claim C5 -/

theorem dec_sample_spec_bounds (e : ℤ) :
    (-32768 ≤ (dec_sample_spec e).1 ∧ (dec_sample_spec e).1 ≤ 32767) ∧
    (-32768 ≤ (dec_sample_spec e).2 ∧ (dec_sample_spec e).2 ≤ 32767) := by
  simp only [dec_sample_spec]
  omega

/-- **C5.**  On every complete 4-byte coded sample, the `decEstereo` loop
produces exactly the 4 output bytes obtained by the spec's recipe
(`dec_sample_spec`): `mid = (sample >> 16) & 0xFFFF` read as an unsigned
16-bit field, `rawSide = sample & 0xFFFF` reinterpreted as signed 16-bit
two's complement (subtract `0x10000` when `≥ 0x8000`), `left = mid + side`,
`right = mid - side`, both clamped into `[-32768, 32767]` and packed as
`int16`. -/
theorem C5_decEstereo_sample_semantics (b0 b1 b2 b3 : ℕ) :
    decEstereo_loop [b0, b1, b2, b3] =
      some (int16ToBytes (dec_sample_spec (toInt32 (leNat [b0, b1, b2, b3]))).1 ++
        int16ToBytes (dec_sample_spec (toInt32 (leNat [b0, b1, b2, b3]))).2) := by
  have hb := dec_sample_spec_bounds (toInt32 (leNat [b0, b1, b2, b3]))
  rcases hde : dec_sample_spec (toInt32 (leNat [b0, b1, b2, b3])) with ⟨dl, dr⟩
  rw [hde] at hb
  simp only [decEstereo_loop, unpack_i, Option.bind_eq_bind, Option.some_bind,
    dec_sample_eq_spec, hde]
  rw [pack_h_eq dl hb.1.1 hb.1.2, pack_h_eq dr hb.2.1 hb.2.2]
  simp only [Option.some_bind]
  simp

/-! ## Claim C6 -/

/-- **C6.**  For 16-bit samples, the semi-sum and semi-difference always lie
in `[-32768, 32767]`, so `estereo2mono`'s `<h` pack of either value and
`codEstereo`'s `<i` pack of the combined 32-bit sample always succeed: the
`struct.error` branches are unreachable. -/
theorem C6_no_pack_overflow (l r : ℤ) (hl1 : -32768 ≤ l) (hl2 : l ≤ 32767)
    (hr1 : -32768 ≤ r) (hr2 : r ≤ 32767) :
    (-32768 ≤ (l + r).fdiv 2 ∧ (l + r).fdiv 2 ≤ 32767) ∧
    (-32768 ≤ (l - r).fdiv 2 ∧ (l - r).fdiv 2 ≤ 32767) ∧
    (pack_h ((l + r).fdiv 2)).isSome = true ∧
    (pack_h ((l - r).fdiv 2)).isSome = true ∧
    (pack_i (cod_sample l r)).isSome = true := by
  have hs : -32768 ≤ (l + r).fdiv 2 ∧ (l + r).fdiv 2 ≤ 32767 := by
    rw [Int.fdiv_eq_ediv _ (by norm_num : (0 : ℤ) ≤ 2)]
    omega
  have hd : -32768 ≤ (l - r).fdiv 2 ∧ (l - r).fdiv 2 ≤ 32767 := by
    rw [Int.fdiv_eq_ediv _ (by norm_num : (0 : ℤ) ≤ 2)]
    omega
  have hc := cod_sample_bounds l r hl1 hl2 hr1 hr2
  refine ⟨hs, hd, ?_, ?_, ?_⟩
  · rw [pack_h_eq _ hs.1 hs.2]
    rfl
  · rw [pack_h_eq _ hd.1 hd.2]
    rfl
  · rw [pack_i_eq _ hc.1 hc.2]
    rfl

/-- **C6, witness.**  The no-overflow statement at the extreme frame
`(-32768, 32767)`. -/
theorem C6_no_pack_overflow_witness :
    (-32768 ≤ ((-32768 : ℤ) + 32767).fdiv 2 ∧ ((-32768 : ℤ) + 32767).fdiv 2 ≤ 32767) ∧
    (-32768 ≤ ((-32768 : ℤ) - 32767).fdiv 2 ∧ ((-32768 : ℤ) - 32767).fdiv 2 ≤ 32767) ∧
    (pack_h (((-32768 : ℤ) + 32767).fdiv 2)).isSome = true ∧
    (pack_h (((-32768 : ℤ) - 32767).fdiv 2)).isSome = true ∧
    (pack_i (cod_sample (-32768) 32767)).isSome = true :=
  C6_no_pack_overflow (-32768) 32767 (by norm_num) (by norm_num) (by norm_num) (by norm_num)

/-! ## Claim C9 -/

theorem pack_h_toInt16 (b0 b1 : ℕ) (h0 : b0 < 256) (h1 : b1 < 256) :
    pack_h (toInt16 (leNat [b0, b1])) = some [b0, b1] := by
  rw [leNat_two]
  have hv : -32768 ≤ toInt16 (b0 + 256 * b1) ∧ toInt16 (b0 + 256 * b1) ≤ 32767 := by
    rw [toInt16]
    split_ifs <;> constructor <;> omega
  rw [pack_h, if_pos hv, natBytesLE_two]
  have hval : ((toInt16 (b0 + 256 * b1)) % 65536).toNat = b0 + 256 * b1 := by
    rw [toInt16]
    split_ifs <;> omega
  rw [hval]
  have e1 : (b0 + 256 * b1) % 256 = b0 := by omega
  have e2 : (b0 + 256 * b1) / 256 % 256 = b1 := by omega
  rw [e1, e2]

theorem mono_stereo_loop : ∀ L R : List ℕ, L.length = R.length → L.length % 2 = 0 →
    (∀ b ∈ L, b < 256) → (∀ b ∈ R, b < 256) →
    estereo2mono_loop (fun l _ => l) (mono2estereoData L R) = some L ∧
    estereo2mono_loop (fun _ r => r) (mono2estereoData L R) = some R
  | [], [], _, _, _, _ => ⟨rfl, rfl⟩
  | [], _ :: _, hlen, _, _, _ => by simp at hlen
  | [_], _, _, hpar, _, _ => by simp at hpar
  | _ :: _ :: _, [], hlen, _, _, _ => by simp at hlen
  | _ :: _ :: _, [_], hlen, _, _, _ => by
    simp only [List.length_cons, List.length_nil] at hlen
    omega
  | a0 :: a1 :: L, b0 :: b1 :: R, hlen, hpar, hL, hR => by
    have hlen2 : L.length = R.length := by
      simp only [List.length_cons] at hlen
      omega
    have hpar2 : L.length % 2 = 0 := by
      simp only [List.length_cons] at hpar
      omega
    have hL2 : ∀ b ∈ L, b < 256 := fun b hb => hL b (by simp [hb])
    have hR2 : ∀ b ∈ R, b < 256 := fun b hb => hR b (by simp [hb])
    have ha0 : a0 < 256 := hL a0 (by simp)
    have ha1 : a1 < 256 := hL a1 (by simp)
    have hb0 : b0 < 256 := hR b0 (by simp)
    have hb1 : b1 < 256 := hR b1 (by simp)
    obtain ⟨ih0, ih1⟩ := mono_stereo_loop L R hlen2 hpar2 hL2 hR2
    have hmerge : mono2estereoData (a0 :: a1 :: L) (b0 :: b1 :: R) =
        a0 :: a1 :: b0 :: b1 :: mono2estereoData L R := rfl
    rw [hmerge]
    constructor
    · simp only [estereo2mono_loop, unpack_hh, Option.bind_eq_bind, Option.some_bind]
      rw [pack_h_toInt16 a0 a1 ha0 ha1]
      simp [ih0]
    · simp only [estereo2mono_loop, unpack_hh, Option.bind_eq_bind, Option.some_bind]
      rw [pack_h_toInt16 b0 b1 hb0 hb1]
      simp [ih1]

/-- **C9.**  Interleaving two equal-length mono 16-bit payloads with
`mono2estereo` and then down-mixing with `canal = 0` returns exactly the
left payload, and with `canal = 1` exactly the right payload.  (A 16-bit
payload is a byte string of even length whose entries are bytes.) -/
theorem C9_merge_downmix_roundtrip (L R : List ℕ) (hlen : L.length = R.length)
    (hpar : L.length % 2 = 0) (hL : ∀ b ∈ L, b < 256) (hR : ∀ b ∈ R, b < 256) :
    estereo2monoData 0 (mono2estereoData L R) = some L ∧
    estereo2monoData 1 (mono2estereoData L R) = some R := by
  obtain ⟨h0, h1⟩ := mono_stereo_loop L R hlen hpar hL hR
  exact ⟨h0, h1⟩

/-- **C9, witness.**  The merge/down-mix round trip on the concrete mono
payloads `[1, 2]` and `[3, 4]`. -/
theorem C9_merge_downmix_witness :
    estereo2monoData 0 (mono2estereoData [1, 2] [3, 4]) = some [1, 2] ∧
    estereo2monoData 1 (mono2estereoData [1, 2] [3, 4]) = some [3, 4] :=
  C9_merge_downmix_roundtrip [1, 2] [3, 4] (by decide) (by decide) (by decide) (by decide)

/-! ## HeaderCodec lemmas -/

theorem leNat_natBytesLE_two (n : ℕ) (h : n ≤ 65535) : leNat (natBytesLE 2 n) = n := by
  rw [natBytesLE_two, leNat_two]
  omega

theorem leNat_natBytesLE_four (n : ℕ) (h : n ≤ 4294967295) : leNat (natBytesLE 4 n) = n := by
  rw [natBytesLE_four, leNat_four]
  omega

/-- The 44 bytes `escribir_cabecera_wav` produces on its success path. -/
def headerBytes (canales frecuencia bits_per_sample data_tamano : ℕ) : List ℕ :=
  [82, 73, 70, 70] ++ natBytesLE 4 (36 + data_tamano) ++ [87, 65, 86, 69] ++ [102, 109, 116, 32] ++
  natBytesLE 4 16 ++ natBytesLE 2 1 ++ natBytesLE 2 canales ++ natBytesLE 4 frecuencia ++
  natBytesLE 4 (frecuencia * canales * bits_per_sample / 8) ++
  natBytesLE 2 (canales * bits_per_sample / 8) ++
  natBytesLE 2 bits_per_sample ++ [100, 97, 116, 97] ++ natBytesLE 4 data_tamano

theorem escribir_eq (ch rate bps d : ℕ) (h1 : ch ≤ 65535) (h2 : rate ≤ 4294967295)
    (h3 : bps ≤ 65535) (h4 : 36 + d ≤ 4294967295) (h5 : rate * ch * bps / 8 ≤ 4294967295)
    (h6 : ch * bps / 8 ≤ 65535) :
    escribir_cabecera_wav ch rate bps d = some (headerBytes ch rate bps d) := by
  have h7 : d ≤ 4294967295 := by omega
  simp [escribir_cabecera_wav, pack_I, pack_H, h1, h2, h3, h4, h5, h6, h7, headerBytes]

theorem leer_short (file : List ℕ) (h : file.length < 44) :
    leer_cabecera_wav file = .error .invalidLength := by
  rw [leer_cabecera_wav]
  have hlen : (file.take 44).length ≠ 44 := by
    rw [List.length_take]
    omega
  simp only [if_pos hlen]

theorem leer_ok (file : List ℕ) (hlen : 44 ≤ file.length)
    (hriff : (file.take 44).take 4 = [82, 73, 70, 70])
    (hwave : ((file.take 44).drop 8).take 4 = [87, 65, 86, 69])
    (hfmt : ((file.take 44).drop 12).take 4 = [102, 109, 116, 32])
    (hdata : ((file.take 44).drop 36).take 4 = [100, 97, 116, 97]) :
    leer_cabecera_wav file =
      .ok ⟨leNat (((file.take 44).drop 22).take 2), leNat (((file.take 44).drop 24).take 4),
        leNat (((file.take 44).drop 34).take 2), leNat (((file.take 44).drop 40).take 4),
        file.take 44⟩ := by
  rw [leer_cabecera_wav]
  have h44 : ¬((file.take 44).length ≠ 44) := by
    rw [List.length_take]
    omega
  rw [if_neg h44]
  have htags : ¬((file.take 44).take 4 ≠ [82, 73, 70, 70] ∨
      ((file.take 44).drop 8).take 4 ≠ [87, 65, 86, 69] ∨
      ((file.take 44).drop 12).take 4 ≠ [102, 109, 116, 32] ∨
      ((file.take 44).drop 36).take 4 ≠ [100, 97, 116, 97]) := by
    simp [hriff, hwave, hfmt, hdata]
  rw [if_neg htags]

theorem leer_tag_err (file : List ℕ) (hlen : 44 ≤ file.length)
    (htag : (file.take 44).take 4 ≠ [82, 73, 70, 70] ∨
      ((file.take 44).drop 8).take 4 ≠ [87, 65, 86, 69] ∨
      ((file.take 44).drop 12).take 4 ≠ [102, 109, 116, 32] ∨
      ((file.take 44).drop 36).take 4 ≠ [100, 97, 116, 97]) :
    leer_cabecera_wav file = .error .invalidTag := by
  rw [leer_cabecera_wav]
  have h44 : ¬((file.take 44).length ≠ 44) := by
    rw [List.length_take]
    omega
  rw [if_neg h44, if_pos htag]

set_option maxHeartbeats 1000000 in
theorem leer_headerBytes (ch rate bps d : ℕ) (h1 : ch ≤ 65535) (h2 : rate ≤ 4294967295)
    (h3 : bps ≤ 65535) (h4 : d ≤ 4294967295) :
    leer_cabecera_wav (headerBytes ch rate bps d) =
      .ok ⟨ch, rate, bps, d, headerBytes ch rate bps d⟩ := by
  have hlen : (headerBytes ch rate bps d).length = 44 := rfl
  have h := leer_ok (headerBytes ch rate bps d) (by omega) rfl rfl rfl rfl
  rw [h]
  have e1 : (((headerBytes ch rate bps d).take 44).drop 22).take 2 = natBytesLE 2 ch := rfl
  have e2 : (((headerBytes ch rate bps d).take 44).drop 24).take 4 = natBytesLE 4 rate := rfl
  have e3 : (((headerBytes ch rate bps d).take 44).drop 34).take 2 = natBytesLE 2 bps := rfl
  have e4 : (((headerBytes ch rate bps d).take 44).drop 40).take 4 = natBytesLE 4 d := rfl
  have e5 : (headerBytes ch rate bps d).take 44 = headerBytes ch rate bps d := rfl
  rw [e1, e2, e3, e4, e5, leNat_natBytesLE_two ch h1, leNat_natBytesLE_four rate h2,
    leNat_natBytesLE_two bps h3, leNat_natBytesLE_four d h4]

/-! ## Claim C3 -/

/-- **C3, counterexample.**  A 44-byte header whose format-chunk length
field holds 17 (bytes 16-19) but whose four tags are valid parses
successfully; the field is never inspected. -/
theorem C3_fmt_length_counterexample :
    leNat (([82, 73, 70, 70, 40, 0, 0, 0, 87, 65, 86, 69, 102, 109, 116, 32, 17, 0, 0, 0, 1, 0,
      2, 0, 68, 172, 0, 0, 16, 177, 2, 0, 4, 0, 16, 0, 100, 97, 116, 97, 4, 0, 0, 0].drop
        16).take 4) = 17 ∧
    leer_cabecera_wav [82, 73, 70, 70, 40, 0, 0, 0, 87, 65, 86, 69, 102, 109, 116, 32, 17, 0, 0,
        0, 1, 0, 2, 0, 68, 172, 0, 0, 16, 177, 2, 0, 4, 0, 16, 0, 100, 97, 116, 97, 4, 0, 0, 0] =
      .ok ⟨2, 44100, 16, 4, [82, 73, 70, 70, 40, 0, 0, 0, 87, 65, 86, 69, 102, 109, 116, 32, 17,
        0, 0, 0, 1, 0, 2, 0, 68, 172, 0, 0, 16, 177, 2, 0, 4, 0, 16, 0, 100, 97, 116, 97, 4, 0,
        0, 0]⟩ :=
  ⟨by decide, by rfl⟩

/-- **C3, amended.**  `leer_cabecera_wav` does not validate the
format-chunk length field: whatever value that 4-byte field holds, a header
of at least 44 bytes whose four tags match parses successfully. -/
theorem C3_fmt_length_not_validated (file : List ℕ) (fmtlen : ℕ) (hlen : 44 ≤ file.length)
    (hriff : (file.take 44).take 4 = [82, 73, 70, 70])
    (hwave : ((file.take 44).drop 8).take 4 = [87, 65, 86, 69])
    (hfmt : ((file.take 44).drop 12).take 4 = [102, 109, 116, 32])
    (hdata : ((file.take 44).drop 36).take 4 = [100, 97, 116, 97])
    (_hfield : leNat (((file.take 44).drop 16).take 4) = fmtlen) :
    ∃ p : WavParams, leer_cabecera_wav file = .ok p :=
  ⟨_, leer_ok file hlen hriff hwave hfmt hdata⟩

/-- **C3, witness.**  The amended statement evaluated on the header with
format-chunk length 17. -/
theorem C3_fmt_length_witness :
    ∃ p : WavParams, leer_cabecera_wav [82, 73, 70, 70, 40, 0, 0, 0, 87, 65, 86, 69, 102, 109,
      116, 32, 17, 0, 0, 0, 1, 0, 2, 0, 68, 172, 0, 0, 16, 177, 2, 0, 4, 0, 16, 0, 100, 97, 116,
      97, 4, 0, 0, 0] = .ok p :=
  C3_fmt_length_not_validated _ 17 (by decide) (by decide) (by decide) (by decide) (by decide)
    (by decide)

/-! ## Claim C7 -/

set_option maxHeartbeats 1000000 in
/-- **C7.**  `escribir_cabecera_wav` produces exactly 44 little-endian
bytes with `riffSize = 36 + dataSize` at offset 4, format-chunk length 16
at offset 16, audio format code 1 at offset 20,
`byteRate = sampleRate * channels * bitsPerSample / 8` (integer division)
at offset 28 and `blockAlign = channels * bitsPerSample / 8` at offset 32;
for `(channels, rate, bits, dataSize) = (2, 44100, 16, 4)` the serialized
byteRate field reads 176400 and the blockAlign field reads 4. -/
theorem C7_escribir_fields (ch rate bps d : ℕ) (h1 : ch ≤ 65535) (h2 : rate ≤ 4294967295)
    (h3 : bps ≤ 65535) (h4 : 36 + d ≤ 4294967295) (h5 : rate * ch * bps / 8 ≤ 4294967295)
    (h6 : ch * bps / 8 ≤ 65535) :
    escribir_cabecera_wav ch rate bps d = some (headerBytes ch rate bps d) ∧
    (headerBytes ch rate bps d).length = 44 ∧
    leNat (((headerBytes ch rate bps d).drop 4).take 4) = 36 + d ∧
    leNat (((headerBytes ch rate bps d).drop 16).take 4) = 16 ∧
    leNat (((headerBytes ch rate bps d).drop 20).take 2) = 1 ∧
    leNat (((headerBytes ch rate bps d).drop 28).take 4) = rate * ch * bps / 8 ∧
    leNat (((headerBytes ch rate bps d).drop 32).take 2) = ch * bps / 8 ∧
    leNat (((headerBytes 2 44100 16 4).drop 28).take 4) = 176400 ∧
    leNat (((headerBytes 2 44100 16 4).drop 32).take 2) = 4 := by
  refine ⟨escribir_eq ch rate bps d h1 h2 h3 h4 h5 h6, rfl, ?_, ?_, ?_, ?_, ?_,
    by decide, by decide⟩
  · rw [show ((headerBytes ch rate bps d).drop 4).take 4 = natBytesLE 4 (36 + d) from rfl,
      leNat_natBytesLE_four _ h4]
  · rw [show ((headerBytes ch rate bps d).drop 16).take 4 = natBytesLE 4 16 from rfl]
    decide
  · rw [show ((headerBytes ch rate bps d).drop 20).take 2 = natBytesLE 2 1 from rfl]
    decide
  · rw [show ((headerBytes ch rate bps d).drop 28).take 4 =
      natBytesLE 4 (rate * ch * bps / 8) from rfl, leNat_natBytesLE_four _ h5]
  · rw [show ((headerBytes ch rate bps d).drop 32).take 2 =
      natBytesLE 2 (ch * bps / 8) from rfl, leNat_natBytesLE_two _ h6]

/-- **C7, witness.**  The serialization facts at
`(channels, rate, bits, dataSize) = (2, 44100, 16, 4)`. -/
theorem C7_escribir_fields_witness :
    escribir_cabecera_wav 2 44100 16 4 = some (headerBytes 2 44100 16 4) ∧
    (headerBytes 2 44100 16 4).length = 44 ∧
    leNat (((headerBytes 2 44100 16 4).drop 4).take 4) = 36 + 4 ∧
    leNat (((headerBytes 2 44100 16 4).drop 16).take 4) = 16 ∧
    leNat (((headerBytes 2 44100 16 4).drop 20).take 2) = 1 ∧
    leNat (((headerBytes 2 44100 16 4).drop 28).take 4) = 44100 * 2 * 16 / 8 ∧
    leNat (((headerBytes 2 44100 16 4).drop 32).take 2) = 2 * 16 / 8 ∧
    leNat (((headerBytes 2 44100 16 4).drop 28).take 4) = 176400 ∧
    leNat (((headerBytes 2 44100 16 4).drop 32).take 2) = 4 :=
  C7_escribir_fields 2 44100 16 4 (by norm_num) (by norm_num) (by norm_num) (by norm_num)
    (by norm_num) (by norm_num)

/-! ## Claim C8 -/

/-- **C8.**  Serializing a header and re-parsing the resulting 44 bytes
succeeds and returns exactly the same channel count, sample rate, bits per
sample and data size (the supplied values must fit their fields, including
the derived byteRate and blockAlign fields, or `struct.pack` raises). -/
theorem C8_header_roundtrip (ch rate bps d : ℕ) (h1 : ch ≤ 65535) (h2 : rate ≤ 4294967295)
    (h3 : bps ≤ 65535) (h4 : 36 + d ≤ 4294967295) (h5 : rate * ch * bps / 8 ≤ 4294967295)
    (h6 : ch * bps / 8 ≤ 65535) :
    escribir_cabecera_wav ch rate bps d = some (headerBytes ch rate bps d) ∧
    leer_cabecera_wav (headerBytes ch rate bps d) =
      .ok ⟨ch, rate, bps, d, headerBytes ch rate bps d⟩ :=
  ⟨escribir_eq ch rate bps d h1 h2 h3 h4 h5 h6,
  leer_headerBytes ch rate bps d h1 h2 h3 (by omega)⟩

/-- **C8, witness.**  The header round trip at
`(channels, rate, bits, dataSize) = (2, 44100, 16, 4)`. -/
theorem C8_header_roundtrip_witness :
    escribir_cabecera_wav 2 44100 16 4 = some (headerBytes 2 44100 16 4) ∧
    leer_cabecera_wav (headerBytes 2 44100 16 4) =
      .ok ⟨2, 44100, 16, 4, headerBytes 2 44100 16 4⟩ :=
  C8_header_roundtrip 2 44100 16 4 (by norm_num) (by norm_num) (by norm_num) (by norm_num)
    (by norm_num) (by norm_num)

/-! ## Claim C10 -/

/-- **C10.**  `leer_cabecera_wav` fails with the invalid-header-length
error whenever fewer than 44 bytes are available; fails with the
invalid-tag error whenever any of the four fixed tags is wrong (in
particular on a header starting with "RIFX"); and otherwise succeeds,
returning the channel count, sample rate, bits per sample and data-chunk
size read from the header plus the raw 44 header bytes. -/
theorem C10_leer_validation :
    (∀ file : List ℕ, file.length < 44 → leer_cabecera_wav file = .error .invalidLength) ∧
    (∀ file : List ℕ, 44 ≤ file.length →
      ((file.take 44).take 4 ≠ [82, 73, 70, 70] ∨
        ((file.take 44).drop 8).take 4 ≠ [87, 65, 86, 69] ∨
        ((file.take 44).drop 12).take 4 ≠ [102, 109, 116, 32] ∨
        ((file.take 44).drop 36).take 4 ≠ [100, 97, 116, 97]) →
      leer_cabecera_wav file = .error .invalidTag) ∧
    (∀ file : List ℕ, 44 ≤ file.length →
      (file.take 44).take 4 = [82, 73, 70, 70] →
      ((file.take 44).drop 8).take 4 = [87, 65, 86, 69] →
      ((file.take 44).drop 12).take 4 = [102, 109, 116, 32] →
      ((file.take 44).drop 36).take 4 = [100, 97, 116, 97] →
      leer_cabecera_wav file =
        .ok ⟨leNat (((file.take 44).drop 22).take 2), leNat (((file.take 44).drop 24).take 4),
          leNat (((file.take 44).drop 34).take 2), leNat (((file.take 44).drop 40).take 4),
          file.take 44⟩) ∧
    leer_cabecera_wav [82, 73, 70, 88, 40, 0, 0, 0, 87, 65, 86, 69, 102, 109, 116, 32, 16, 0, 0,
        0, 1, 0, 2, 0, 68, 172, 0, 0, 16, 177, 2, 0, 4, 0, 16, 0, 100, 97, 116, 97, 4, 0, 0, 0] =
      .error .invalidTag :=
  ⟨leer_short, fun file h ht => leer_tag_err file h ht,
    fun file h t1 t2 t3 t4 => leer_ok file h t1 t2 t3 t4, by rfl⟩

/-- **C10, witness.**  The three validation behaviours evaluated on
concrete buffers: a 1-byte buffer, the "RIFX" header, and a valid header. -/
theorem C10_leer_validation_witness :
    leer_cabecera_wav [0] = .error .invalidLength ∧
    leer_cabecera_wav [82, 73, 70, 88, 40, 0, 0, 0, 87, 65, 86, 69, 102, 109, 116, 32, 16, 0, 0,
        0, 1, 0, 2, 0, 68, 172, 0, 0, 16, 177, 2, 0, 4, 0, 16, 0, 100, 97, 116, 97, 4, 0, 0, 0] =
      .error .invalidTag ∧
    leer_cabecera_wav (headerBytes 2 44100 16 4) =
      .ok ⟨leNat ((((headerBytes 2 44100 16 4).take 44).drop 22).take 2),
        leNat ((((headerBytes 2 44100 16 4).take 44).drop 24).take 4),
        leNat ((((headerBytes 2 44100 16 4).take 44).drop 34).take 2),
        leNat ((((headerBytes 2 44100 16 4).take 44).drop 40).take 4),
        (headerBytes 2 44100 16 4).take 44⟩ :=
  ⟨C10_leer_validation.1 [0] (by decide),
    C10_leer_validation.2.1 _ (by decide) (by decide),
    C10_leer_validation.2.2.1 (headerBytes 2 44100 16 4) (by decide) (by decide) (by decide)
      (by decide) (by decide)⟩
